import Mathlib

/-!
Verification of the SeisGo ambient-noise cross-correlation core
(`seispy/noise.py`) against its natural-language specification.

The Python source is shallowly embedded: 2-D float matrices become
`List (List ℚ)`, complex spectra become lists of a rational complex pair
`Qc`, and the external collaborators (`seispy.stacking`, the obspy
function `linear_regression`, the FFT) are passed in as explicit function
parameters, exactly where the source calls out to them.
-/

namespace SeisGo

/-! ## Definitions: the shallow embedding of `seispy/noise.py` -/

/-- Embeds `np.max(row)`: signed maximum of a row (0 for an empty row, which the
source never produces). -/
def peak : List ℚ → ℚ
  | [] => 0
  | x :: xs => xs.foldl max x

/-- Embeds `np.max(np.abs(row))`: maximum absolute amplitude of a row. -/
def maxAbs (r : List ℚ) : ℚ := peak (r.map (fun x => |x|))

/-- insert into an ascending list (helper for the sort used by `np.median`). -/
def insertQ (x : ℚ) : List ℚ → List ℚ
  | [] => [x]
  | y :: ys => if x ≤ y then x :: y :: ys else y :: insertQ x ys

/-- ascending insertion sort on rationals. -/
def sortQ : List ℚ → List ℚ
  | [] => []
  | x :: xs => insertQ x (sortQ xs)

/-- Embeds `np.median`: sort ascending; odd length takes the middle element, even
length averages the two middle elements. -/
def medianQ (l : List ℚ) : ℚ :=
  let s := sortQ l
  let n := l.length
  if n = 0 then 0
  else if n % 2 = 1 then s.getD (n / 2) 0
  else (s.getD (n / 2 - 1) 0 + s.getD (n / 2) 0) / 2

/-- Embeds `np.mean` of a 1-D array. -/
def meanQ (l : List ℚ) : ℚ := l.sum / l.length

/-- Embeds `ampmax = np.max(cc_array, axis=1)` (noise.py 495, 230, 264, 361, 558). -/
def ampmaxOf (rows : List (List ℚ)) : List ℚ := rows.map peak

/-- Embeds `tindx = np.where((ampmax < 20*np.median(ampmax)) & (ampmax > 0))[0]`:
the indices of the rows that survive the amplitude-outlier rule
(noise.py 496, 231, 265, 362, 559). -/
def tindxOf (rows : List (List ℚ)) : List ℕ :=
  (List.range rows.length).filter
    (fun i => decide (peak (rows.getD i []) < 20 * medianQ (ampmaxOf rows) ∧
      0 < peak (rows.getD i [])))

/-- Embeds `rows[tindx, :]`: fancy-indexing of a 2-D array by a row-index list. -/
def gatherRows (idx : List ℕ) (rows : List (List ℚ)) : List (List ℚ) :=
  idx.map (fun i => rows.getD i [])

/-- Embeds `v[tindx]`: fancy-indexing of a 1-D rational array. -/
def gatherQ (idx : List ℕ) (l : List ℚ) : List ℚ := idx.map (fun i => l.getD i 0)

/-- Embeds `v[tindx]`: fancy-indexing of a 1-D integer array. -/
def gatherZ (idx : List ℕ) (l : List ℤ) : List ℤ := idx.map (fun i => l.getD i 0)

/-- Embeds `np.mean(rows, axis=0)`: column-wise mean of a matrix; the column count
is that of the first row, as for a rectangular numpy array. -/
def meanCols (rows : List (List ℚ)) : List ℚ :=
  match rows with
  | [] => []
  | r0 :: _ =>
    (List.range r0.length).map
      (fun j => (rows.map (fun r => r.getD j 0)).sum / rows.length)

/-- Embeds `np.zeros(n)`. -/
def zerosQ (n : ℕ) : List ℚ := List.replicate n 0

/-- The external collaborators from `seispy.stacking` (that module is not part
of the embedded source; `stacking` below only forwards to them). -/
structure StackFns where
  pws : List (List ℚ) → ℚ → List ℚ
  robustStack : List (List ℚ) → ℚ → List ℚ × List ℚ × ℕ
  adaptiveFilter : List (List ℚ) → ℚ → List ℚ
  nrootStack : List (List ℚ) → ℕ → List ℚ

/-- Result tuple of `stacking`: `cc_array, cc_ngood, cc_time, allstacks1,
allstacks2, allstacks3, nstacks` (noise.py 530). -/
structure StackOut where
  cc_array : List (List ℚ)
  cc_ngood : List ℤ
  cc_time : List ℚ
  allstacks1 : List ℚ
  allstacks2 : List ℚ
  allstacks3 : List ℚ
  nstacks : ℤ
deriving DecidableEq

/-- Embedding of `stacking` (noise.py 470-530).  The outlier rule removes rows
first; if nothing survives everything returned is empty.  Note that in the
source the `acf` and `nroot` branches assign to a variable `allstack1` that is
never returned, so in those branches the returned `allstacks1` stays the
untouched zero array; the embedding reproduces that by leaving `allstacks1`
unchanged there (the collaborator results are discarded). -/
def stacking (F : StackFns) (cc_array : List (List ℚ)) (cc_time : List ℚ)
    (cc_ngood : List ℤ) (samp_freq : ℚ) (smethod : String) : StackOut :=
  let npts := (cc_array.headD []).length
  let tindx := tindxOf cc_array
  if tindx.length = 0 then
    ⟨[], [], [], [], [], [], 0⟩
  else
    let cc_array2 := gatherRows tindx cc_array
    let cc_time2 := gatherQ tindx cc_time
    let cc_ngood2 := gatherZ tindx cc_ngood
    let allstacks1 :=
      if smethod = "linear" then meanCols cc_array2
      else if smethod = "pws" then F.pws cc_array2 samp_freq
      else if smethod = "robust" then (F.robustStack cc_array2 (1 / 1000)).1
      else if smethod = "all" then meanCols cc_array2
      else zerosQ npts
    let allstacks2 :=
      if smethod = "all" then F.pws cc_array2 samp_freq else zerosQ npts
    let allstacks3 :=
      if smethod = "all" then (F.robustStack cc_array2 (1 / 1000)).1
      else zerosQ npts
    ⟨cc_array2, cc_ngood2, cc_time2, allstacks1, allstacks2, allstacks3,
      cc_ngood2.sum⟩

/-- A trivial instantiation of the external stacking collaborators, used to
evaluate the embedding at concrete inputs. -/
def trivialStackFns : StackFns :=
  ⟨fun _ _ => [], fun _ _ => ([], [], 0), fun _ _ => [], fun _ _ => []⟩

/-- exact square root of a rational that is a square (numerator and
denominator both perfect squares); helper for the spec-modelled nth-root
stack below. -/
def sqrtQ (q : ℚ) : ℚ := (Nat.sqrt q.num.natAbs : ℚ) / (Nat.sqrt q.den : ℚ)

/-- sign-preserving square root (exact on signed perfect squares). -/
def signedRoot (x : ℚ) : ℚ := if x < 0 then -sqrtQ (-x) else sqrtQ x

/-- Modelled from the spec: `seispy.stacking.nroot_stack` is not under the
embedded sources; the spec describes `nroot` as "nth-root stack (amplitude
raised to 1/n, signed, before averaging, then raised back)".  With n = 2 this
is the signed square of the column-wise mean of the signed square roots.
`sqrtQ` is exact on the perfect-square inputs at which this model is used. -/
def nrootStack2 (rows : List (List ℚ)) : List ℚ :=
  (meanCols (rows.map (fun r => r.map signedRoot))).map
    (fun m => if m < 0 then -(m * m) else m * m)

/-- positions (into the array `t = np.arange(-Nfft2+1, Nfft2)*dt`, of length
`2*Nfft2 - 1`) kept by the trimming step
`ind = np.where(np.abs(t) <= maxlag)[0]` (noise.py 284-285, 421-422). -/
def lagPositions (Nfft2 : ℕ) (dt maxlag : ℚ) : List ℕ :=
  (List.range (2 * Nfft2 - 1)).filter
    (fun j => decide (|((((j : ℤ) - ((Nfft2 : ℤ) - 1)) : ℤ) : ℚ) * dt| ≤ maxlag))

/-- the retained lag axis, in units of samples: `t[ind] / dt`. -/
def lagKeep (Nfft2 : ℕ) (dt maxlag : ℚ) : List ℤ :=
  (lagPositions Nfft2 dt maxlag).map (fun (j : ℕ) => (j : ℤ) - ((Nfft2 : ℤ) - 1))

/-- a complex number with rational real and imaginary parts (models the
`np.complex64` spectra values). -/
structure Qc where
  re : ℚ
  im : ℚ
deriving DecidableEq

/-- complex zero. -/
def Qc.zero : Qc := ⟨0, 0⟩

/-- complex addition. -/
def Qc.add (a b : Qc) : Qc := ⟨a.re + b.re, a.im + b.im⟩

/-- complex subtraction. -/
def Qc.sub (a b : Qc) : Qc := ⟨a.re - b.re, a.im - b.im⟩

/-- Embeds `np.conj`. -/
def Qc.conj (a : Qc) : Qc := ⟨a.re, -a.im⟩

/-- division of a complex value by a rational scalar. -/
def Qc.divn (a : Qc) (n : ℚ) : Qc := ⟨a.re / n, a.im / n⟩

/-- sum of a list of complex values. -/
def csum (l : List Qc) : Qc := l.foldr Qc.add Qc.zero

/-- Embeds `np.mean` of a complex 1-D array. -/
def meanC (l : List Qc) : Qc := (csum l).divn l.length

/-- Embeds `crap[:Nfft2] - np.mean(crap[:Nfft2])`: remove the mean across the
frequency bins ("remove the mean in freq domain", noise.py 224, 254, 279,
348, 385). -/
def demeanC (v : List Qc) : List Qc := v.map (fun x => x.sub (meanC v))

/-- Embeds `np.mean(corr[itime,:], axis=0)` for complex matrices. -/
def meanColsC (rows : List (List Qc)) : List Qc :=
  match rows with
  | [] => []
  | r0 :: _ =>
    (List.range r0.length).map
      (fun j => (csum (rows.map (fun r => r.getD j Qc.zero))).divn rows.length)

/-- The Hermitian spectrum assembly of noise.py 220-227 / 246-257 / 277-281 /
344-351: a `Nfft`-long array whose positions `0..Nfft2-1` carry the (already
demeaned) half-spectrum `m`, whose last `Nfft2-1` positions carry the mirror
`crap[-(Nfft2)+1:] = np.flip(np.conj(crap[1:(Nfft2)]))` (assigned after the
first half, so it wins where the two regions overlap), and whose position 0
is finally overwritten by `crap[0] = complex(0,0)` exactly when the branch
contains that statement (`zeroDC`). -/
def assembleSpec (m : List Qc) (Nfft : ℕ) (zeroDC : Bool) : List Qc :=
  let Nfft2 := m.length
  (List.range Nfft).map (fun j =>
    if zeroDC = true ∧ j = 0 then Qc.zero
    else if Nfft < j + Nfft2 ∧ 0 < Nfft - j then
      Qc.conj (m.getD (Nfft - j) Qc.zero)
    else if j < Nfft2 then m.getD j Qc.zero
    else Qc.zero)

/-- the spectrum handed to the inverse FFT for window `i` in the
`substack_len == cc_len` branch of `correlate` (noise.py 220-227) and in the
per-segment loop of `correlate_nonlinear_stack` (noise.py 344-351). -/
def correlateSubSpec (row : List Qc) (Nfft : ℕ) : List Qc :=
  assembleSpec (demeanC row) Nfft true

/-- Embeds `int(np.round(x))` for nonnegative arguments: round half to even. -/
def roundHalfEven (q : ℚ) : ℤ :=
  if q - ⌊q⌋ < 1 / 2 then ⌊q⌋
  else if 1 / 2 < q - ⌊q⌋ then ⌊q⌋ + 1
  else if ⌊q⌋ % 2 = 0 then ⌊q⌋ else ⌊q⌋ + 1

/-- the spectra handed to the inverse FFT by the binned sub-stack branch of
both correlators (noise.py 236-260, 367-392): one entry per sub-stack window,
`none` when the window caught no segments (the loop `continue`s after only
advancing `tstart`). -/
def correlateBinSpec (corr : List (List Qc)) (dataS_t : List ℚ)
    (substack_len : ℚ) (Nfft : ℕ) : List (Option (List Qc)) :=
  let tstart := dataS_t.headD 0
  let Ttotal := (dataS_t.getLast?).getD 0 - tstart
  let nstack := (roundHalfEven (Ttotal / substack_len)).toNat
  (List.range nstack).map (fun istack =>
    let ts := tstart + substack_len * (istack : ℚ)
    let itime := (List.range dataS_t.length).filter
      (fun i => decide (ts ≤ dataS_t.getD i 0 ∧
        dataS_t.getD i 0 < ts + substack_len))
    if itime.length = 0 then none
    else
      some (assembleSpec
        (demeanC (meanColsC (itime.map (fun i => corr.getD i []))))
        Nfft true))

/-- The NumPy ordering of complex values (as used by `np.max`/`np.sort` on
complex arrays): lexicographic on (real, imaginary). -/
def lexLtC (a b : Qc) : Bool :=
  decide (a.re < b.re ∨ (a.re = b.re ∧ a.im < b.im))

/-- binary maximum for the NumPy complex order. -/
def maxC2 (a b : Qc) : Qc := if lexLtC a b then b else a

/-- Embeds `np.max` of a complex row. -/
def peakC : List Qc → Qc
  | [] => Qc.zero
  | x :: xs => xs.foldl maxC2 x

/-- insertion into a lexicographically ascending complex list. -/
def insertC (x : Qc) : List Qc → List Qc
  | [] => [x]
  | y :: ys => if lexLtC y x then y :: insertC x ys else x :: y :: ys

/-- lexicographic insertion sort of complex values. -/
def sortC : List Qc → List Qc
  | [] => []
  | x :: xs => insertC x (sortC xs)

/-- scaling of a complex value by a rational. -/
def scaleC (c : ℚ) (a : Qc) : Qc := ⟨c * a.re, c * a.im⟩

/-- Embeds `np.median` of a complex array (sorts lexicographically, averages the two
middles for even length). -/
def medianC (l : List Qc) : Qc :=
  let s := sortC l
  let n := l.length
  if n = 0 then Qc.zero
  else if n % 2 = 1 then s.getD (n / 2) Qc.zero
  else ((s.getD (n / 2 - 1) Qc.zero).add (s.getD (n / 2) Qc.zero)).divn 2

/-- Embeds `rows[tindx, :]` for complex matrices. -/
def gatherRowsC (idx : List ℕ) (rows : List (List Qc)) : List (List Qc) :=
  idx.map (fun i => rows.getD i [])

/-- the outlier filter of the no-sub-stack branch of `correlate` (noise.py
272-273), which there is applied to the rows of the *complex* cross-spectrum
matrix `corr`, using the NumPy lexicographic order on complex values. -/
def tindxC (corr : List (List Qc)) : List ℕ :=
  (List.range corr.length).filter (fun i =>
    lexLtC (peakC (corr.getD i [])) (scaleC 20 (medianC (corr.map peakC))) &&
      lexLtC Qc.zero (peakC (corr.getD i [])))

/-- the spectrum handed to the inverse FFT by the no-sub-stack branch of
`correlate` (noise.py 270-281): mean of the surviving cross-spectra, frequency
mean removed, Hermitian mirror appended — and *no* `crap[0] = complex(0,0)`
statement in this branch. -/
def correlateNoSubSpec (corr : List (List Qc)) (Nfft : ℕ) : List Qc :=
  assembleSpec (demeanC (meanColsC (gatherRowsC (tindxC corr) corr)))
    Nfft false

/-- noise.py 353-355: `ns_corr = s_corr` binds the *same array object* and
the loop `ns_corr[iii] /= np.max(np.abs(ns_corr[iii]))` divides each row in
place, so `s_corr` itself is normalized; in the functional embedding both
names therefore denote this one normalized matrix. -/
def normalizeRows (s_corr : List (List ℚ)) : List (List ℚ) :=
  s_corr.map (fun r => r.map (fun x => x / maxAbs r))

/-- Embeds `row[ind]`: selection of the trimmed lag positions from one row. -/
def gatherCols (ind : List ℕ) (r : List ℚ) : List ℚ :=
  ind.map (fun j => r.getD j 0)

/-- Result tuple of `correlate_nonlinear_stack`:
`s_corr, t_corr, n_corr, ns_corr[:,ind]` (noise.py 427). -/
structure NLOut where
  s_corr : List (List ℚ)
  t_corr : List ℚ
  n_corr : List ℤ
  ns_corr : List (List ℚ)
deriving DecidableEq

/-- Embedding of `correlate_nonlinear_stack` in the
`substack and substack_len == cc_len` branch (noise.py 353-365 and 420-427),
starting from the time-domain matrix `s_corr` produced by the per-segment
inverse FFTs.  `n_corr` was set to 1 per window before filtering, so its
filtered form is one 1 per surviving row. -/
def correlate_nonlinear_subcc (s_corr0 : List (List ℚ)) (dataS_t : List ℚ)
    (Nfft2 : ℕ) (dt maxlag : ℚ) : NLOut :=
  let s1 := normalizeRows s_corr0
  let tindx := tindxOf s1
  let ind := lagPositions Nfft2 dt maxlag
  ⟨(gatherRows tindx s1).map (gatherCols ind),
    gatherQ tindx dataS_t,
    tindx.map (fun _ => (1 : ℤ)),
    s1.map (gatherCols ind)⟩

/-- Embeds `np.arange(a, b, step)` for positive `step`: the values `a + k*step`
for `k < ceil((b-a)/step)`. -/
def arangeQ (a b step : ℚ) : List ℚ :=
  (List.range (⌈(b - a) / step⌉.toNat)).map
    (fun (k : ℕ) => a + (k : ℚ) * step)

/-- noise.py 1057-1066 of `mwcs_dvv`:
`indx1 = np.where(delta_mcoh > 0.65)`, `indx2 = np.where(delta_err < 0.1)`,
`indx3 = np.where(delta_t < 0.1)` intersected (NB line 1062 compares the
*signed* `delta_t`, not its absolute value). -/
def mwcsKept (delta_t delta_err delta_mcoh : List ℚ) : List ℕ :=
  (List.range delta_t.length).filter (fun i =>
    decide (13 / 20 < delta_mcoh.getD i 0 ∧ delta_err.getD i 0 < 1 / 10 ∧
      delta_t.getD i 0 < 1 / 10))

/-- noise.py 1056-1082: the final stage of `mwcs_dvv`.  When more than two
windows are kept, the weights are `1/delta_err` with non-finite entries
(division by zero) replaced by 1, the obspy function `linear_regression` (an external
collaborator passed in as `linReg`) is run on the kept center times and
delays, and the result is `(-m0*100, em0*100)`; otherwise `m0 = em0 = 0`. -/
def mwcsFinal (delta_t delta_err delta_mcoh time_axis : List ℚ)
    (linReg : List ℚ → List ℚ → List ℚ → ℚ × ℚ) : ℚ × ℚ :=
  let indx := mwcsKept delta_t delta_err delta_mcoh
  if 2 < indx.length then
    let w := indx.map (fun i =>
      if delta_err.getD i 0 = 0 then 1 else 1 / delta_err.getD i 0)
    let p := linReg (gatherQ indx time_axis) (gatherQ indx delta_t) w
    (-p.1 * 100, p.2 * 100)
  else (0, 0)

/-- noise.py 1160-1178: the final stage of `WCC_dvv`; `count` equals the
number of windows (= the length of `time_axis`), all of which are fed to the
regression with unit weights. -/
def wccFinal (delta_t time_axis : List ℚ)
    (linReg : List ℚ → List ℚ → List ℚ → ℚ × ℚ) : ℚ × ℚ :=
  let count := time_axis.length
  if 2 < count then
    let p := linReg time_axis delta_t (List.replicate count 1)
    (-p.1 * 100, p.2 * 100)
  else (0, 0)

/-- noise.py 901 of `dtw_dvv`:
`indx = np.where((tvect>=0.05*npts*dt) & (tvect<=0.95*npts*dt))[0]` — the
positions actually fed to the regression.  `npts` is `len(ref)`, whereas
`tvect = np.arange(tmin,tmax,dt)` has its own, unrelated length. -/
def dtwKeptIdx (npts : ℕ) (tmin tmax dt : ℚ) : List ℕ :=
  (List.range (arangeQ tmin tmax dt).length).filter (fun j =>
    decide (5 / 100 * (npts : ℚ) * dt ≤ (arangeQ tmin tmax dt).getD j 0 ∧
      (arangeQ tmin tmax dt).getD j 0 ≤ 95 / 100 * (npts : ℚ) * dt))

/-- noise.py 883-915: the regression stage of `dtw_dvv`, taking the
backtracked shift-times `stbarTime` as input.  The guard `if npts > 2` tests
the total sample count of the input traces, not the number of kept
regression points, and the returned pair is `(m0*100, em0*100)`. -/
def dtwRegress (npts : ℕ) (tmin tmax dt : ℚ) (stbarTime : List ℚ)
    (linReg : List ℚ → List ℚ → List ℚ → ℚ × ℚ) : ℚ × ℚ :=
  let indx := dtwKeptIdx npts tmin tmax dt
  if 2 < npts then
    let p := linReg (gatherQ indx (arangeQ tmin tmax dt))
      (gatherQ indx stbarTime) (indx.map (fun _ => (1 : ℚ)))
    (p.1 * 100, p.2 * 100)
  else (0, 0)

/-- Modelled from the spec: `seispy.utils.mad` is not under the embedded
sources; the spec calls it the "global median-absolute-deviation", modelled
as the median of the absolute deviations from the median. -/
def madQ (l : List ℚ) : ℚ := medianQ (l.map (fun x => |x - medianQ l|))

/-- population variance; `np.std(data) == 0` exactly when this is 0 (the
square root itself is irrational, so `np.std` stays an abstract collaborator
`stdFn` below). -/
def varQ (l : List ℚ) : ℚ := (l.map (fun x => (x - meanQ l) ^ 2)).sum / l.length

/-- Modelled from the spec: `seispy.utils.demean` is not under the embedded
sources; the spec says each row is demeaned — subtract the row mean. -/
def demeanRow (r : List ℚ) : List ℚ := r.map (fun x => x - meanQ r)

/-- Modelled from the spec: `seispy.utils.detrend` is not under the embedded
sources; the spec says each row is linearly detrended — subtract the
least-squares line over the sample index. -/
def detrendRow (r : List ℚ) : List ℚ :=
  let n : ℚ := r.length
  let xbar := (n - 1) / 2
  let ybar := meanQ r
  let sxx := ((List.range r.length).map
    (fun (i : ℕ) => ((i : ℚ) - xbar) ^ 2)).sum
  let sxy := ((List.range r.length).map
    (fun (i : ℕ) => ((i : ℚ) - xbar) * (r.getD i 0 - ybar))).sum
  let b := if sxx = 0 then 0 else sxy / sxx
  (List.range r.length).map
    (fun (i : ℕ) => r.getD i 0 - (ybar + b * ((i : ℚ) - xbar)))

/-- Modelled from the spec: `seispy.utils.taper` is not under the embedded
sources; the spec says only that a taper is applied to each row.  Modelled as
pointwise multiplication with a fixed symmetric window (linear ramps over the
outer tenth); only its length preservation matters for the claims. -/
def taperRow (r : List ℚ) : List ℚ :=
  let n := r.length
  (List.range n).map (fun (i : ℕ) =>
    r.getD i 0 *
      min 1 (min ((10 * ((i : ℚ) + 1)) / (n : ℚ))
        ((10 * ((n : ℚ) - (i : ℚ))) / (n : ℚ))))

/-- Result triple of `cut_trace_make_statis`:
`trace_stdS, dataS_t, dataS` (noise.py 87; the empty-result returns at
noise.py 57 and 64 return the three initial empty lists). -/
structure CutOut where
  trace_stdS : List ℚ
  dataS_t : List ℚ
  dataS : List (List ℚ)
deriving DecidableEq

/-- Embedding of `cut_trace_make_statis` (noise.py 26-87).  `stdFn` stands
for `np.std` (external; only its zero test is consulted here, and
`trace_stdS` divides by its value); `inc_hours/24*86400 = inc_hours*3600`.
Non-finite (NaN) statistics cannot arise over ℚ, so the guards reduce to the
zero tests.  The region `cc_len > inc_hours*3600` (negative `nseg`, where the
source would raise building `np.zeros` with a negative shape) is outside the
model; the segment-count claim below therefore assumes
`cc_len <= inc_hours*3600`. -/
def cut_trace_make_statis (stdFn : List ℚ → ℚ)
    (inc_hours cc_len step sps : ℕ) (starttime : ℚ) (data : List ℚ) :
    CutOut :=
  let nseg := (inc_hours * 3600 - cc_len) / step
  if data.length < sps * inc_hours * 3600 then ⟨[], [], []⟩
  else if madQ data = 0 ∨ stdFn data = 0 then ⟨[], [], []⟩
  else
    let npts := cc_len * sps
    let seg := fun (iseg : ℕ) =>
      (List.range npts).map (fun j => data.getD (iseg * step * sps + j) 0)
    ⟨(List.range nseg).map (fun i => maxAbs (seg i) / stdFn data),
      (List.range nseg).map (fun (i : ℕ) => starttime + (step : ℚ) * (i : ℚ)),
      (List.range nseg).map (fun i => taperRow (detrendRow (demeanRow (seg i))))⟩

/-- Embedding of `computeErrorFunction` (noise.py 1512-1569) with the L2
norm, as a function of the sample index `i` and the lag column
`lIdx = ll + lag`.  The corner fix-up loops copy boundary rows of the same
column (`err[-ll]` below, `err[nSample-ll-1]` above); that constant
extrapolation is folded into a closed form. -/
def computeErrorFunction (u1 u0 : ℕ → ℚ) (nSample lag : ℕ)
    (i lIdx : ℕ) : ℚ :=
  let ll : ℤ := (lIdx : ℤ) - (lag : ℤ)
  let ii : ℤ :=
    if (i : ℤ) + ll < 0 then -ll
    else if (nSample : ℤ) - 1 < (i : ℤ) + ll then (nSample : ℤ) - ll - 1
    else (i : ℤ)
  (u1 ii.toNat - u0 (ii + ll).toNat) ^ 2

/-- Embedding of `accumulateErrorFunction` (noise.py 1572-1642) for the
forward direction (`dir > 0`; `dtw_dvv` passes `direction`, 1 = forward).
`d[ii,ll] = err[ii,ll] + min(dist(ll-1), dist(ll), dist(ll±1))` where the
`ll∓1` lookups step back `b` samples and add the skipped errors (equation 10
of Hale 2013); at `ii = 0` the lookups read the still-zero initial matrix,
so the row is just `err[0,·]`.  Lag indices are clamped to `[0, nLag-1]` and
`jb = max(0, ii-b)`; the (never used) `b = 0` case is clamped to the `b = 1`
behaviour, the strain limit being an integer ≥ 1. -/
def accumulateErrorFunction (err : ℕ → ℕ → ℚ) (nLag b ii ll : ℕ) : ℚ :=
  if h : ii = 0 then err 0 ll
  else
    let ji := ii - 1
    let jb := ii - max b 1
    let lM := ll - 1
    let lP := min (ll + 1) (nLag - 1)
    let sM := ((List.range (ji - jb)).map (fun t => err (jb + 1 + t) lM)).sum
    let sP := ((List.range (ji - jb)).map (fun t => err (jb + 1 + t) lP)).sum
    err ii ll +
      min (min (accumulateErrorFunction err nLag b jb lM + sM)
          (accumulateErrorFunction err nLag b ji ll))
        (accumulateErrorFunction err nLag b jb lP + sP)
termination_by ii
decreasing_by
  all_goals omega

/-! ## Supporting lemmas -/

theorem map_getD_range (l : List ℚ) :
    (List.range l.length).map (fun j => l.getD j 0) = l := by
  induction l with
  | nil => rfl
  | cons x xs ih =>
    rw [List.length_cons, List.range_succ_eq_map, List.map_cons, List.map_map]
    simp only [List.getD_cons_zero, Function.comp_def, List.getD_cons_succ]
    rw [ih]

theorem meanCols_single (r : List ℚ) : meanCols [r] = r := by
  unfold meanCols
  simp only [List.map_cons, List.map_nil, List.sum_cons, List.sum_nil,
    List.length_cons, List.length_nil, zero_add, Nat.cast_one, add_zero,
    div_one]
  exact map_getD_range r

theorem length_filter_range_ge (p : ℕ → Bool) (a n : ℕ)
    (hp : ∀ j, j < n → (p j = true ↔ a ≤ j)) (ha : a ≤ n) :
    ((List.range n).filter p).length = n - a := by
  induction n with
  | zero => simp
  | succ m ih =>
    rw [List.range_succ, List.filter_append, List.length_append]
    by_cases ham : a ≤ m
    · rw [ih (fun j hj => hp j (by omega)) ham]
      have hm : p m = true := (hp m (by omega)).mpr ham
      have h1 : List.filter p [m] = [m] := by simp [hm]
      rw [h1, List.length_singleton]
      omega
    · have h0 : ((List.range m).filter p).length = 0 := by
        rw [List.length_eq_zero, List.filter_eq_nil_iff]
        intro j hj
        rw [List.mem_range] at hj
        rw [hp j (by omega)]
        omega
      have hm : p m = false := by
        rcases hpm : p m with _ | _
        · rfl
        · exact absurd ((hp m (by omega)).mp hpm) (by omega)
      have h1 : List.filter p [m] = [] := by simp [hm]
      rw [h0, h1]
      simp only [List.length_nil]
      omega

theorem length_filter_range_band (p : ℕ → Bool) (a b n : ℕ)
    (hp : ∀ j, j < n → (p j = true ↔ a ≤ j ∧ j ≤ b)) (hb : b < n)
    (hab : a ≤ b) :
    ((List.range n).filter p).length = b + 1 - a := by
  induction n with
  | zero => omega
  | succ m ih =>
    rw [List.range_succ, List.filter_append, List.length_append]
    by_cases hbm : b = m
    · subst hbm
      have hm : p b = true := (hp b (by omega)).mpr ⟨hab, le_refl _⟩
      rw [length_filter_range_ge p a b (fun j hj => by rw [hp j (by omega)]; omega)
        (by omega)]
      have h1 : List.filter p [b] = [b] := by simp [hm]
      rw [h1, List.length_singleton]
      omega
    · have hm : p m = false := by
        rcases hpm : p m with _ | _
        · rfl
        · exact absurd ((hp m (by omega)).mp hpm).2 (by omega)
      rw [ih (fun j hj => hp j (by omega)) (by omega)]
      simp [hm]

theorem absMul_le_floor (k : ℤ) (dt maxlag : ℚ) (hdt : 0 < dt) :
    |(k : ℚ) * dt| ≤ maxlag ↔ |k| ≤ ⌊maxlag / dt⌋ := by
  rw [abs_mul, abs_of_pos hdt, ← Int.cast_abs]
  constructor
  · intro h
    rw [Int.le_floor, le_div_iff₀ hdt]
    exact h
  · intro h
    rw [Int.le_floor, le_div_iff₀ hdt] at h
    exact h

theorem mem_lagKeep (Nfft2 : ℕ) (dt maxlag : ℚ) (z : ℤ) :
    z ∈ lagKeep Nfft2 dt maxlag ↔
      -((Nfft2 : ℤ) - 1) ≤ z ∧ z ≤ (Nfft2 : ℤ) - 1 ∧
        |(z : ℚ) * dt| ≤ maxlag := by
  simp only [lagKeep, lagPositions, List.mem_map, List.mem_filter,
    List.mem_range, decide_eq_true_eq]
  constructor
  · rintro ⟨j, ⟨hj, hpj⟩, rfl⟩
    refine ⟨by omega, by omega, hpj⟩
  · rintro ⟨h1, h2, h3⟩
    refine ⟨(z + ((Nfft2 : ℤ) - 1)).toNat, ⟨by omega, ?_⟩, by omega⟩
    have hz : (((z + ((Nfft2 : ℤ) - 1)).toNat : ℤ) - ((Nfft2 : ℤ) - 1)) = z := by
      omega
    rw [hz]
    exact h3

theorem headD_map_range (f : ℕ → Qc) (n : ℕ) (hn : 0 < n) :
    ((List.range n).map f).headD Qc.zero = f 0 := by
  cases n with
  | zero => omega
  | succ k =>
    rw [List.range_succ_eq_map]
    simp

theorem assembleSpec_zeroDC_head (m : List Qc) (Nfft : ℕ) :
    (assembleSpec m Nfft true).headD Qc.zero = Qc.zero := by
  cases Nfft with
  | zero => rfl
  | succ k =>
    rw [assembleSpec, headD_map_range _ _ (by omega)]
    simp

theorem assembleSpec_noDC_head (m : List Qc) (Nfft : ℕ)
    (hm : 0 < m.length) (hmN : m.length ≤ Nfft) :
    (assembleSpec m Nfft false).headD Qc.zero = m.getD 0 Qc.zero := by
  rw [assembleSpec, headD_map_range _ _ (by omega)]
  have h1 : ¬ (false = true ∧ (0 : ℕ) = 0) := by simp
  have h2 : ¬ (Nfft < 0 + m.length ∧ 0 < Nfft - 0) := by omega
  rw [if_neg h1, if_neg h2, if_pos hm]

theorem demeanC_getD_zero (m : List Qc) (hm : 0 < m.length) :
    (demeanC m).getD 0 Qc.zero = (m.headD Qc.zero).sub (meanC m) := by
  cases m with
  | nil => simp at hm
  | cons x xs => rfl

theorem demeanC_length (m : List Qc) : (demeanC m).length = m.length := by
  simp [demeanC]

theorem le_foldl_max (xs : List ℚ) (a : ℚ) : a ≤ xs.foldl max a := by
  induction xs generalizing a with
  | nil => exact le_refl a
  | cons x xs ih => exact le_trans (le_max_left a x) (ih (max a x))

theorem foldl_max_le (xs : List ℚ) (a b : ℚ) (ha : a ≤ b)
    (h : ∀ x ∈ xs, x ≤ b) : xs.foldl max a ≤ b := by
  induction xs generalizing a with
  | nil => exact ha
  | cons x xs ih =>
    exact ih (max a x) (max_le ha (h x (List.mem_cons_self x xs)))
      (fun y hy => h y (List.mem_cons_of_mem x hy))

theorem mem_le_peak (r : List ℚ) (x : ℚ) (hx : x ∈ r) : x ≤ peak r := by
  cases r with
  | nil => simp at hx
  | cons y ys =>
    rw [List.mem_cons] at hx
    rcases hx with rfl | hx
    · exact le_foldl_max ys x
    · unfold peak
      induction ys generalizing y with
      | nil => simp at hx
      | cons z zs ih =>
        rw [List.mem_cons] at hx
        rcases hx with rfl | hx
        · exact le_trans (le_max_right y x) (le_foldl_max zs (max y x))
        · exact ih (max y z) hx

theorem peak_le (r : List ℚ) (b : ℚ) (hb : 0 ≤ b) (h : ∀ x ∈ r, x ≤ b) :
    peak r ≤ b := by
  cases r with
  | nil => exact hb
  | cons x xs =>
    exact foldl_max_le xs x b (h x (List.mem_cons_self x xs))
      (fun y hy => h y (List.mem_cons_of_mem x hy))

theorem maxAbs_nonneg (r : List ℚ) : 0 ≤ maxAbs r := by
  cases r with
  | nil => exact le_refl 0
  | cons x xs =>
    exact le_trans (abs_nonneg x)
      (mem_le_peak _ _ (List.mem_cons_self _ _))

theorem foldl_max_div (xs : List ℚ) (a c : ℚ) (hc : 0 < c) :
    (xs.map (fun x => x / c)).foldl max (a / c) = xs.foldl max a / c := by
  induction xs generalizing a with
  | nil => rfl
  | cons x xs ih =>
    rw [List.map_cons, List.foldl_cons, List.foldl_cons,
      max_div_div_right hc.le]
    exact ih (max a x)

theorem peak_map_div (r : List ℚ) (c : ℚ) (hc : 0 < c) :
    peak (r.map (fun x => x / c)) = peak r / c := by
  cases r with
  | nil => simp [peak]
  | cons x xs =>
    rw [List.map_cons]
    exact foldl_max_div xs x c hc

theorem maxAbs_map_div (r : List ℚ) (c : ℚ) (hc : 0 < c) :
    maxAbs (r.map (fun x => x / c)) = maxAbs r / c := by
  unfold maxAbs
  rw [List.map_map]
  have habs : ((fun x => |x|) ∘ fun x => x / c) = fun x => |x| / c := by
    funext x
    simp [abs_div, abs_of_pos hc]
  rw [habs]
  have hmm : (fun x => |x| / c) = (fun y => y / c) ∘ (fun x => |x|) := rfl
  rw [hmm, ← List.map_map]
  exact peak_map_div _ c hc

theorem maxAbs_normalize (r : List ℚ) (h : maxAbs r ≠ 0) :
    maxAbs (r.map (fun x => x / maxAbs r)) = 1 := by
  have hpos : 0 < maxAbs r := lt_of_le_of_ne (maxAbs_nonneg r) (Ne.symm h)
  rw [maxAbs_map_div r _ hpos, div_self h]

theorem abs_getD_le_maxAbs (r : List ℚ) (j : ℕ) :
    |r.getD j 0| ≤ maxAbs r := by
  by_cases hj : j < r.length
  · have hmem : r.getD j 0 ∈ r := by
      rw [List.getD_eq_getElem r 0 hj]
      exact List.getElem_mem hj
    exact mem_le_peak _ _ (List.mem_map_of_mem _ hmem)
  · rw [List.getD_eq_default r 0 (by omega)]
    simpa using maxAbs_nonneg r

theorem maxAbs_gatherCols_le (ind : List ℕ) (r : List ℚ) (b : ℚ)
    (hb : 0 ≤ b) (h : maxAbs r ≤ b) : maxAbs (gatherCols ind r) ≤ b := by
  apply peak_le _ _ hb
  intro x hx
  rw [gatherCols, List.map_map, List.mem_map] at hx
  obtain ⟨j, _, rfl⟩ := hx
  exact le_trans (abs_getD_le_maxAbs r j) h

theorem computeErrorFunction_zero_lag (u1 u0 : ℕ → ℚ) (n i : ℕ)
    (hn : 1 ≤ n) (hi : i < n) :
    computeErrorFunction u1 u0 n 0 i 0 = (u1 i - u0 i) ^ 2 := by
  unfold computeErrorFunction
  simp only [Nat.cast_zero, sub_self, add_zero]
  rw [if_neg (by omega), if_neg (by omega), Int.toNat_natCast]

theorem sum_range_succ_q (f : ℕ → ℚ) (n : ℕ) :
    ((List.range (n + 1)).map f).sum = ((List.range n).map f).sum + f n := by
  rw [List.range_succ]
  simp

theorem sum_range_shift (e : ℕ → ℚ) (a d : ℕ) :
    ((List.range (a + 1)).map e).sum +
      ((List.range d).map (fun t => e (a + 1 + t))).sum =
      ((List.range (a + 1 + d)).map e).sum := by
  induction d with
  | zero => simp
  | succ k ihd =>
    rw [sum_range_succ_q (fun t => e (a + 1 + t)) k]
    rw [show a + 1 + (k + 1) = a + 1 + k + 1 from by omega]
    rw [sum_range_succ_q e (a + 1 + k)]
    rw [← add_assoc, ihd]

theorem accumulateErrorFunction_sum (E : ℕ → ℕ → ℚ) (b m : ℕ) :
    accumulateErrorFunction E 1 b m 0 =
      ((List.range (m + 1)).map (fun i => E i 0)).sum := by
  induction m using Nat.strong_induction_on with
  | _ m ih =>
    cases m with
    | zero =>
      rw [accumulateErrorFunction]
      simp [List.range_succ]
    | succ k =>
      rw [accumulateErrorFunction]
      rw [dif_neg (by omega : ¬ k + 1 = 0)]
      simp only [Nat.add_sub_cancel, Nat.zero_sub, Nat.sub_self, Nat.min_zero]
      rw [ih (k + 1 - max b 1) (by omega), ih k (by omega)]
      have htel := sum_range_shift (fun i => E i 0) (k + 1 - max b 1)
        (k - (k + 1 - max b 1))
      rw [show k + 1 - max b 1 + 1 + (k - (k + 1 - max b 1)) = k + 1 from by
        omega] at htel
      rw [htel, min_self, min_self]
      rw [sum_range_succ_q (fun i => E i 0) (k + 1)]
      ring

/-! ## The claims -/

/-- Claim C1 (counterexample).  The claim states that that the *peak
absolute amplitude* of a surviving row is strictly below 20 times the batch median.  The source
filters on the *signed* maximum (`np.max`, not `np.max(np.abs(...))`): in the
batch `[[1,0],[1,0],[1,-100]]` every row survives (`tindxOf` keeps index 2)
although row 2 has peak absolute amplitude 100 > 20 × median. -/
theorem C1_counterexample :
    (2 : ℕ) ∈ tindxOf [[1, 0], [1, 0], [1, -100]] ∧
      20 * medianQ (ampmaxOf [[1, 0], [1, 0], [1, -100]]) <
        maxAbs (([[1, 0], [1, 0], [1, -100]] : List (List ℚ)).getD 2 []) := by
  norm_num [tindxOf, medianQ, ampmaxOf, sortQ, insertQ, peak, maxAbs,
    List.range_succ]

/-- Claim C1 (amended).  A row of a batch survives the outlier rule (is listed
in `tindx`, hence enters the higher-level combination) if and only if its
*signed* peak amplitude (`np.max` of the row) is strictly below 20 times the
median of the signed peaks of the batch and strictly positive; equivalently, it is
excluded iff its signed peak is ≥ 20 × median or ≤ 0.  The same `tindx`
computation is the one embedded in `stacking` and in the sub-stack branches
of the correlators. -/
theorem C1_amended (rows : List (List ℚ)) (i : ℕ) :
    i ∈ tindxOf rows ↔
      i < rows.length ∧ peak (rows.getD i []) < 20 * medianQ (ampmaxOf rows) ∧
        0 < peak (rows.getD i []) := by
  simp [tindxOf, List.mem_filter, List.mem_range, and_assoc]

/-- Claim C3 (code defect).  In `stacking`, the `nroot` branch assigns
`stack.nroot_stack(cc_array,2)` to the variable `allstack1`, but the function
returns `allstacks1`, which is still the zero array: on the all-ones batch
the returned primary stack is `[0,0]`, whereas the nth-root stack (n = 2) of
those rows is `[1,1]`. -/
theorem C3_nroot_discarded :
    (stacking trivialStackFns [[1, 1], [1, 1]] [0, 1] [1, 1] 20
        "nroot").allstacks1 = [0, 0] ∧
      nrootStack2 [[1, 1], [1, 1]] = [1, 1] ∧
      ([0, 0] : List ℚ) ≠ [1, 1] := by
  refine ⟨?_, ?_, by norm_num⟩
  · have h1 : ("nroot" : String) ≠ "linear" := by decide
    have h2 : ("nroot" : String) ≠ "pws" := by decide
    have h3 : ("nroot" : String) ≠ "robust" := by decide
    have h4 : ("nroot" : String) ≠ "all" := by decide
    norm_num [stacking, tindxOf, medianQ, ampmaxOf, sortQ, insertQ, peak,
      gatherRows, gatherQ, gatherZ, zerosQ, List.range_succ, h1, h2, h3, h4,
      List.replicate]
  · norm_num [nrootStack2, meanCols, signedRoot, sqrtQ, Nat.sqrt_one,
      List.range_succ]

/-- Claim C7 (counterexample).  Stacking a single CCF row whose signed peak is
not positive does not return the row: the outlier rule removes it and the
function returns empty results. -/
theorem C7_counterexample :
    (stacking trivialStackFns [[-1, -2]] [0] [1] 20 "linear").allstacks1 = []
      ∧ ([] : List ℚ) ≠ [-1, -2] := by
  constructor
  · norm_num [stacking, tindxOf, medianQ, ampmaxOf, sortQ, insertQ, peak,
      List.range_succ]
  · simp

/-- Claim C7 (amended).  Provided the signed peak of the single row is strictly
positive, `stacking` with method `linear` returns it unchanged; and whenever
at least one row survives the outlier rule, the `linear` stack equals the
elementwise arithmetic mean of the surviving rows. -/
theorem C7_amended (F : StackFns) (row : List ℚ) (t : ℚ) (g : ℤ) (sf : ℚ)
    (rows : List (List ℚ)) (ts : List ℚ) (ng : List ℤ)
    (hrow : 0 < peak row) (hne : tindxOf rows ≠ []) :
    (stacking F [row] [t] [g] sf "linear").allstacks1 = row ∧
      (stacking F rows ts ng sf "linear").allstacks1 =
        meanCols (gatherRows (tindxOf rows) rows) := by
  constructor
  · have hmed : medianQ [peak row] = peak row := by
      norm_num [medianQ, sortQ, insertQ]
    have h20 : peak row < 20 * peak row := by linarith
    have htindx : tindxOf [row] = [0] := by
      simp [tindxOf, ampmaxOf, List.range_succ, hmed, h20, hrow]
    simp only [stacking, htindx]
    norm_num [gatherRows, meanCols_single]
  · have hlen : ¬ (tindxOf rows).length = 0 := by
      simpa [List.length_eq_zero] using hne
    simp only [stacking, if_neg hlen]
    norm_num

/-- Claim C6 (counterexample).  The claimed sample count
`2*floor(maxlag/dt)+1` fails when the requested lag window exceeds the
transform half-length: with `Nfft2 = 2`, `dt = 1`, `maxlag = 10` the whole
axis (3 samples) is kept, not 21 samples. -/
theorem C6_counterexample :
    (lagKeep 2 1 10).length = 3 ∧
      2 * (⌊(10 : ℚ) / 1⌋).toNat + 1 = 21 := by
  constructor
  · norm_num [lagKeep, lagPositions, List.range_succ, abs_le]
  · have h : ⌊(10 : ℚ) / 1⌋ = 10 := by norm_num
    rw [h]
    decide

/-- Claim C6 (amended).  The retained lag axis is symmetric about zero for
every configuration, with no side condition; when `dt > 0`, `maxlag > 0`,
`Nfft2 >= 1` and `floor(maxlag/dt)` does not exceed `Nfft2 - 1` (the lag
window fits inside the transform half-length) it contains exactly
`2*floor(maxlag/dt) + 1` samples; and when `dt > 0` and `floor(maxlag/dt)`
exceeds `Nfft2 - 1` the whole `2*Nfft2 - 1` sample axis is kept. -/
theorem C6_amended (Nfft2 : ℕ) (dt maxlag : ℚ) (k : ℤ) :
    (k ∈ lagKeep Nfft2 dt maxlag ↔ -k ∈ lagKeep Nfft2 dt maxlag) ∧
      (0 < dt → 0 < maxlag → 1 ≤ Nfft2 →
        (⌊maxlag / dt⌋).toNat ≤ Nfft2 - 1 →
        (lagKeep Nfft2 dt maxlag).length = 2 * (⌊maxlag / dt⌋).toNat + 1) ∧
      (0 < dt → Nfft2 - 1 < (⌊maxlag / dt⌋).toNat →
        (lagKeep Nfft2 dt maxlag).length = 2 * Nfft2 - 1) := by
  refine ⟨?_, ?_, ?_⟩
  · rw [mem_lagKeep, mem_lagKeep]
    have habs : |((-k : ℤ) : ℚ) * dt| = |(k : ℚ) * dt| := by
      push_cast
      rw [neg_mul, abs_neg]
    rw [habs]
    constructor
    · rintro ⟨h1, h2, h3⟩; exact ⟨by omega, by omega, h3⟩
    · rintro ⟨h1, h2, h3⟩; exact ⟨by omega, by omega, h3⟩
  · intro hdt hml hN1 hrange
    have hF0 : 0 ≤ ⌊maxlag / dt⌋ := by
      apply Int.floor_nonneg.mpr
      positivity
    set F := (⌊maxlag / dt⌋).toNat with hFdef
    have hFcast : (F : ℤ) = ⌊maxlag / dt⌋ := by omega
    rw [lagKeep, List.length_map]
    rw [lagPositions]
    rw [length_filter_range_band _ (Nfft2 - 1 - F) (Nfft2 - 1 + F) _ ?_
      (by omega) (by omega)]
    · omega
    · intro j hj
      rw [decide_eq_true_eq, absMul_le_floor _ _ _ hdt, ← hFcast, abs_le]
      omega
  · intro hdt hbig
    have hFcast : (((⌊maxlag / dt⌋).toNat : ℤ)) = ⌊maxlag / dt⌋ := by omega
    rw [lagKeep, List.length_map]
    rw [lagPositions]
    have hall : ∀ j ∈ List.range (2 * Nfft2 - 1),
        (decide (|((((j : ℤ) - ((Nfft2 : ℤ) - 1)) : ℤ) : ℚ) * dt| ≤ maxlag))
          = true := by
      intro j hj
      rw [List.mem_range] at hj
      rw [decide_eq_true_eq, absMul_le_floor _ _ _ hdt, ← hFcast, abs_le]
      omega
    rw [List.filter_eq_self.mpr hall, List.length_range]

/-- Claim C7 (witness). -/
theorem C7_witness :
    0 < peak [1, 3] ∧ tindxOf [[2, 2]] ≠ [] ∧
      ((stacking trivialStackFns [[1, 3]] [0] [1] 20 "linear").allstacks1 =
          [1, 3] ∧
        (stacking trivialStackFns [[2, 2]] [0] [1] 20 "linear").allstacks1 =
          meanCols (gatherRows (tindxOf [[2, 2]]) [[2, 2]])) :=
  ⟨by norm_num [peak],
   by norm_num [tindxOf, medianQ, ampmaxOf, sortQ, insertQ, peak,
     List.range_succ],
   C7_amended trivialStackFns [1, 3] 0 1 20 [[2, 2]] [0] [1]
     (by norm_num [peak])
     (by norm_num [tindxOf, medianQ, ampmaxOf, sortQ, insertQ, peak,
       List.range_succ])⟩

/-- Claim C6 (witness). -/
theorem C6_witness :
    0 < (1 : ℚ) ∧ 0 < (3 : ℚ) ∧ 1 ≤ 5 ∧ (⌊(3 : ℚ) / 1⌋).toNat ≤ 5 - 1 ∧
      2 - 1 < (⌊(10 : ℚ) / 1⌋).toNat ∧
      (2 ∈ lagKeep 5 1 3 ↔ -2 ∈ lagKeep 5 1 3) ∧
      (lagKeep 5 1 3).length = 2 * (⌊(3 : ℚ) / 1⌋).toNat + 1 ∧
      (lagKeep 2 1 10).length = 2 * 2 - 1 := by
  have h3 : ⌊(3 : ℚ) / 1⌋ = 3 := by norm_num
  have h10 : ⌊(10 : ℚ) / 1⌋ = 10 := by norm_num
  refine ⟨by norm_num, by norm_num, by norm_num, ?_, ?_, ?_, ?_, ?_⟩
  · rw [h3]
    decide
  · rw [h10]
    decide
  · exact (C6_amended 5 1 3 2).1
  · exact (C6_amended 5 1 3 2).2.1 (by norm_num) (by norm_num) (by norm_num)
      (by rw [h3]; decide)
  · exact (C6_amended 2 1 10 0).2.2 (by norm_num) (by rw [h10]; decide)

/-- Claim C2 (counterexample).  In the no-sub-stack branch of `correlate` the
assembled cross-spectrum is *not* DC-zeroed before the inverse FFT: on the
single cross-spectrum row `[1, 0]` (with `Nfft = 4`) the zero-frequency bin
of the spectrum handed to `scipy.fftpack.ifft` is `1/2`, not `0`. -/
theorem C2_counterexample :
    (correlateNoSubSpec [[⟨1, 0⟩, ⟨0, 0⟩]] 4).headD Qc.zero = ⟨1 / 2, 0⟩ ∧
      (⟨1 / 2, 0⟩ : Qc) ≠ Qc.zero := by
  constructor
  · norm_num [correlateNoSubSpec, tindxC, lexLtC, peakC, maxC2, medianC,
      sortC, insertC, scaleC, gatherRowsC, meanColsC, csum, Qc.add, Qc.zero,
      Qc.divn, demeanC, meanC, Qc.sub, assembleSpec, Qc.conj,
      List.range_succ, Qc.mk.injEq]
  · simp [Qc.zero, Qc.mk.injEq]

/-- Claim C2 (amended).  The zero-frequency bin of the assembled cross-spectrum
is set to zero before the inverse FFT in the `substack_len == cc_len` path
and in the binned sub-stack path of both `correlate` and
`correlate_nonlinear_stack` (which also zeroes it in its per-segment loop,
covering all of its execution paths); in the no-sub-stack path of `correlate` the
bin is not zeroed: it equals the first entry of the averaged cross-spectrum
minus the frequency-domain mean, which is in general nonzero. -/
theorem C2_amended (row : List Qc) (rows : List (List Qc)) (ts : List ℚ)
    (L : ℚ) (Nfft Nfftb Nfft0 : ℕ) (corr0 : List (List Qc))
    (hm : 0 < (meanColsC (gatherRowsC (tindxC corr0) corr0)).length)
    (hmN : (meanColsC (gatherRowsC (tindxC corr0) corr0)).length ≤ Nfft0) :
    (correlateSubSpec row Nfft).headD Qc.zero = Qc.zero ∧
      ((correlateBinSpec rows ts L Nfftb).all
        (fun o => decide ((o.getD []).headD Qc.zero = Qc.zero)) = true) ∧
      (correlateNoSubSpec corr0 Nfft0).headD Qc.zero =
        ((meanColsC (gatherRowsC (tindxC corr0) corr0)).headD Qc.zero).sub
          (meanC (meanColsC (gatherRowsC (tindxC corr0) corr0))) := by
  refine ⟨assembleSpec_zeroDC_head _ _, ?_, ?_⟩
  · rw [List.all_eq_true]
    intro o ho
    rw [correlateBinSpec, List.mem_map] at ho
    obtain ⟨istack, _, rfl⟩ := ho
    by_cases hlen : ((List.range ts.length).filter
        (fun i => decide ((ts.headD 0 + L * (istack : ℚ)) ≤ ts.getD i 0 ∧
          ts.getD i 0 < (ts.headD 0 + L * (istack : ℚ)) + L))).length = 0
    · rw [if_pos hlen]
      simp
    · rw [if_neg hlen]
      simp only [Option.getD_some, decide_eq_true_eq]
      exact assembleSpec_zeroDC_head _ _
  · rw [correlateNoSubSpec]
    rw [show (assembleSpec (demeanC (meanColsC (gatherRowsC (tindxC corr0)
        corr0))) Nfft0 false).headD Qc.zero =
        (demeanC (meanColsC (gatherRowsC (tindxC corr0) corr0))).getD 0
          Qc.zero from
      assembleSpec_noDC_head _ _ (by rw [demeanC_length]; exact hm)
        (by rw [demeanC_length]; exact hmN)]
    exact demeanC_getD_zero _ hm

/-- Claim C2 (witness). -/
theorem C2_witness :
    0 < (meanColsC (gatherRowsC (tindxC [[⟨1, 0⟩, ⟨0, 0⟩]])
        [[⟨1, 0⟩, ⟨0, 0⟩]])).length ∧
      (meanColsC (gatherRowsC (tindxC [[⟨1, 0⟩, ⟨0, 0⟩]])
        [[⟨1, 0⟩, ⟨0, 0⟩]])).length ≤ 4 ∧
      ((correlateSubSpec [⟨1, 0⟩, ⟨0, 0⟩] 4).headD Qc.zero = Qc.zero ∧
        ((correlateBinSpec [[⟨1, 0⟩, ⟨0, 0⟩]] [0] 1 4).all
          (fun o => decide ((o.getD []).headD Qc.zero = Qc.zero)) = true) ∧
        (correlateNoSubSpec [[⟨1, 0⟩, ⟨0, 0⟩]] 4).headD Qc.zero =
          ((meanColsC (gatherRowsC (tindxC [[⟨1, 0⟩, ⟨0, 0⟩]])
            [[⟨1, 0⟩, ⟨0, 0⟩]])).headD Qc.zero).sub
            (meanC (meanColsC (gatherRowsC (tindxC [[⟨1, 0⟩, ⟨0, 0⟩]])
              [[⟨1, 0⟩, ⟨0, 0⟩]])))) := by
  have h1 : 0 < (meanColsC (gatherRowsC (tindxC [[⟨1, 0⟩, ⟨0, 0⟩]])
      [[⟨1, 0⟩, ⟨0, 0⟩]])).length := by
    norm_num [meanColsC, gatherRowsC, tindxC, lexLtC, peakC, maxC2, medianC,
      sortC, insertC, scaleC, Qc.zero, List.range_succ]
  have h2 : (meanColsC (gatherRowsC (tindxC [[⟨1, 0⟩, ⟨0, 0⟩]])
      [[⟨1, 0⟩, ⟨0, 0⟩]])).length ≤ 4 := by
    norm_num [meanColsC, gatherRowsC, tindxC, lexLtC, peakC, maxC2, medianC,
      sortC, insertC, scaleC, Qc.zero, List.range_succ]
  exact ⟨h1, h2,
    C2_amended [⟨1, 0⟩, ⟨0, 0⟩] [[⟨1, 0⟩, ⟨0, 0⟩]] [0] 1 4 4 4
      [[⟨1, 0⟩, ⟨0, 0⟩]] h1 h2⟩

/-- Claim C10 (counterexample).  After the in-place normalization the row has
unit maximum absolute amplitude, but the *returned* `s_corr` rows are trimmed
to the lag window `ind` afterwards: if the peak lies outside the window the
maximum absolute amplitude of the returned row is below 1.  Input row
`[1,1,1,2]` with `Nfft2 = 2`, `dt = 1`, `maxlag = 1` keeps positions 0-2 and
returns `[1/2,1/2,1/2]`, whose maximum absolute amplitude is `1/2`. -/
theorem C10_counterexample :
    (correlate_nonlinear_subcc [[1, 1, 1, 2]] [0] 2 1 1).s_corr =
      [[1 / 2, 1 / 2, 1 / 2]] ∧
      maxAbs [1 / 2, 1 / 2, 1 / 2] ≠ 1 := by
  constructor
  · norm_num [correlate_nonlinear_subcc, normalizeRows, maxAbs, peak,
      tindxOf, medianQ, ampmaxOf, sortQ, insertQ, gatherRows, gatherQ,
      gatherCols, lagPositions, List.range_succ, abs_le]
  · have habs : |(1 / 2 : ℚ)| = 1 / 2 := abs_of_nonneg (by norm_num)
    norm_num [maxAbs, peak, habs]

/-- Claim C10 (amended).  `ns_corr = s_corr` is an assignment, not a copy, so
the in-place division normalizes `s_corr` itself: provided every input row
has nonzero maximum absolute amplitude, every row of the shared normalized
matrix has maximum absolute amplitude exactly 1, both returned matrices are
lag-window selections of that same matrix, and every *returned* `s_corr` row
has maximum absolute amplitude at most 1 (exactly 1 only when the peak
position falls inside the lag window). -/
theorem C10_amended (s0 : List (List ℚ)) (ts : List ℚ) (Nfft2 : ℕ)
    (dt maxlag : ℚ)
    (h : (s0.map (fun r => decide (maxAbs r ≠ 0))).all (fun b => b) = true) :
    ((normalizeRows s0).map (fun r => decide (maxAbs r = 1))).all
        (fun b => b) = true ∧
      (correlate_nonlinear_subcc s0 ts Nfft2 dt maxlag).ns_corr =
        (normalizeRows s0).map (gatherCols (lagPositions Nfft2 dt maxlag)) ∧
      (correlate_nonlinear_subcc s0 ts Nfft2 dt maxlag).s_corr =
        (gatherRows (tindxOf (normalizeRows s0)) (normalizeRows s0)).map
          (gatherCols (lagPositions Nfft2 dt maxlag)) ∧
      (((correlate_nonlinear_subcc s0 ts Nfft2 dt maxlag).s_corr).map
        (fun r => decide (maxAbs r ≤ 1))).all (fun b => b) = true := by
  have hz : ∀ r ∈ s0, maxAbs r ≠ 0 := by
    intro r hr
    have := List.all_eq_true.mp h _ (List.mem_map_of_mem _ hr)
    simpa using this
  have hone : ∀ r ∈ normalizeRows s0, maxAbs r = 1 := by
    intro r hr
    rw [normalizeRows, List.mem_map] at hr
    obtain ⟨r0, hr0, rfl⟩ := hr
    exact maxAbs_normalize r0 (hz r0 hr0)
  refine ⟨?_, rfl, rfl, ?_⟩
  · rw [List.all_eq_true]
    intro b hb
    rw [List.mem_map] at hb
    obtain ⟨r, hr, rfl⟩ := hb
    simpa using hone r hr
  · rw [List.all_eq_true]
    intro b hb
    rw [List.mem_map] at hb
    obtain ⟨r, hr, rfl⟩ := hb
    simp only [decide_eq_true_eq]
    simp only [correlate_nonlinear_subcc, List.mem_map] at hr
    obtain ⟨r1, hr1, rfl⟩ := hr
    rw [gatherRows, List.mem_map] at hr1
    obtain ⟨i, _, rfl⟩ := hr1
    apply maxAbs_gatherCols_le _ _ _ (by norm_num)
    by_cases hi : i < (normalizeRows s0).length
    · rw [List.getD_eq_getElem _ _ hi]
      rw [show maxAbs (normalizeRows s0)[i] = 1 from
        hone _ (List.getElem_mem hi)]
    · rw [List.getD_eq_default _ _ (by omega)]
      norm_num [maxAbs, peak]

/-- Claim C10 (witness). -/
theorem C10_witness :
    ((([[1, 2]] : List (List ℚ)).map (fun r => decide (maxAbs r ≠ 0))).all
        (fun b => b) = true) ∧
      (((normalizeRows [[1, 2]]).map (fun r => decide (maxAbs r = 1))).all
          (fun b => b) = true ∧
        (correlate_nonlinear_subcc [[1, 2]] [0] 1 1 1).ns_corr =
          (normalizeRows [[1, 2]]).map (gatherCols (lagPositions 1 1 1)) ∧
        (correlate_nonlinear_subcc [[1, 2]] [0] 1 1 1).s_corr =
          (gatherRows (tindxOf (normalizeRows [[1, 2]]))
            (normalizeRows [[1, 2]])).map
            (gatherCols (lagPositions 1 1 1)) ∧
        (((correlate_nonlinear_subcc [[1, 2]] [0] 1 1 1).s_corr).map
          (fun r => decide (maxAbs r ≤ 1))).all (fun b => b) = true) := by
  have h : (([[1, 2]] : List (List ℚ)).map
      (fun r => decide (maxAbs r ≠ 0))).all (fun b => b) = true := by
    norm_num [maxAbs, peak]
  exact ⟨h, C10_amended [[1, 2]] [0] 1 1 1 h⟩

/-- Claim C4 (counterexample).  A window with delay `-5` s (absolute value far
above 0.1 s) but good coherence and error is *kept* by the selection
stage of `mwcs_dvv`, because the source compares the signed delay `delta_t < 0.1`
rather than `|delta_t| < 0.1`. -/
theorem C4_counterexample :
    0 ∈ mwcsKept [-5, 0, 0, 0] [1 / 20, 1 / 20, 1 / 20, 1 / 20]
        [9 / 10, 9 / 10, 9 / 10, 9 / 10] ∧
      ¬|(-5 : ℚ)| < 1 / 10 := by
  constructor
  · norm_num [mwcsKept, List.range_succ]
  · rw [abs_neg, abs_of_nonneg (by norm_num : (0 : ℚ) ≤ 5)]
    norm_num

/-- Claim C4 (amended).  A per-window measurement enters the final regression
iff its mean coherence exceeds 0.65, its delay error is below 0.1 and its
*signed* delay is below 0.1 s (no absolute value); when more than two windows
are kept the result is the through-origin weighted regression (external
`linReg`) of kept delays versus window center times, negated and ×100,
paired with the regression error ×100. -/
theorem C4_amended (delta_t delta_err delta_mcoh time_axis : List ℚ)
    (linReg : List ℚ → List ℚ → List ℚ → ℚ × ℚ) (i : ℕ)
    (h3 : 2 < (mwcsKept delta_t delta_err delta_mcoh).length) :
    (i ∈ mwcsKept delta_t delta_err delta_mcoh ↔
      i < delta_t.length ∧ 13 / 20 < delta_mcoh.getD i 0 ∧
        delta_err.getD i 0 < 1 / 10 ∧ delta_t.getD i 0 < 1 / 10) ∧
      mwcsFinal delta_t delta_err delta_mcoh time_axis linReg =
        (-(linReg
            (gatherQ (mwcsKept delta_t delta_err delta_mcoh) time_axis)
            (gatherQ (mwcsKept delta_t delta_err delta_mcoh) delta_t)
            ((mwcsKept delta_t delta_err delta_mcoh).map (fun i2 =>
              if delta_err.getD i2 0 = 0 then 1
              else 1 / delta_err.getD i2 0))).1 * 100,
          (linReg
            (gatherQ (mwcsKept delta_t delta_err delta_mcoh) time_axis)
            (gatherQ (mwcsKept delta_t delta_err delta_mcoh) delta_t)
            ((mwcsKept delta_t delta_err delta_mcoh).map (fun i2 =>
              if delta_err.getD i2 0 = 0 then 1
              else 1 / delta_err.getD i2 0))).2 * 100) := by
  constructor
  · simp [mwcsKept, List.mem_filter, List.mem_range, and_assoc]
  · simp only [mwcsFinal, if_pos h3]

/-- Claim C4 (witness). -/
theorem C4_witness :
    2 < (mwcsKept [0, 0, 0] [1 / 20, 1 / 20, 1 / 20]
        [9 / 10, 9 / 10, 9 / 10]).length ∧
      (0 ∈ mwcsKept [0, 0, 0] [1 / 20, 1 / 20, 1 / 20]
          [9 / 10, 9 / 10, 9 / 10] ↔
        0 < ([0, 0, 0] : List ℚ).length ∧
          13 / 20 < ([9 / 10, 9 / 10, 9 / 10] : List ℚ).getD 0 0 ∧
          ([1 / 20, 1 / 20, 1 / 20] : List ℚ).getD 0 0 < 1 / 10 ∧
          ([0, 0, 0] : List ℚ).getD 0 0 < 1 / 10) ∧
      mwcsFinal [0, 0, 0] [1 / 20, 1 / 20, 1 / 20] [9 / 10, 9 / 10, 9 / 10]
        [1, 2, 3] (fun _ _ _ => (1, 1)) = (-1 * 100, 1 * 100) := by
  have h3 : 2 < (mwcsKept [0, 0, 0] [1 / 20, 1 / 20, 1 / 20]
      [9 / 10, 9 / 10, 9 / 10]).length := by
    norm_num [mwcsKept, List.range_succ]
  have h := C4_amended [0, 0, 0] [1 / 20, 1 / 20, 1 / 20]
    [9 / 10, 9 / 10, 9 / 10] [1, 2, 3] (fun _ _ _ => (1, 1)) 0 h3
  exact ⟨h3, h.1, h.2⟩

/-- Claim C5 (counterexample).  In `dtw_dvv` the degeneracy guard tests
`npts > 2` (the trace length), not the number of regression points actually
fed: with `npts = 100` but a `tvect` of length 1 whose only entry falls
outside the kept 5-95 % band, zero points are fed to the regression, yet the
code still calls it (with the stand-in regression returning `(1,1)`, the
result is `(100,100)`, not the claimed `(0,0)`). -/
theorem C5_counterexample :
    (dtwKeptIdx 100 0 (1 / 100) (1 / 100)).length = 0 ∧
      dtwRegress 100 0 (1 / 100) (1 / 100) [0]
        (fun _ _ _ => (1, 1)) = (100, 100) ∧
      ((100 : ℚ), (100 : ℚ)) ≠ ((0 : ℚ), (0 : ℚ)) := by
  have hk : dtwKeptIdx 100 0 (1 / 100) (1 / 100) = [] := by
    have ha : arangeQ 0 (1 / 100) (1 / 100) = [0] := by
      have hc : (⌈((1 : ℚ) / 100 - 0) / (1 / 100)⌉).toNat = 1 := by
        norm_num
      norm_num [arangeQ, hc, List.range_succ]
    norm_num [dtwKeptIdx, ha, List.range_succ]
  refine ⟨?_, ?_, ?_⟩
  · rw [hk]
    rfl
  · rw [dtwRegress, if_pos (by norm_num : (2 : ℕ) < 100)]
    norm_num
  · norm_num [Prod.ext_iff]

/-- Claim C5 (amended).  `mwcs_dvv` and `WCC_dvv` return dv/v = 0 and error = 0
whenever at most two regression points would be fed (their guards test
exactly the fed count); `dtw_dvv` returns (0,0) only when the *trace length*
`npts` is at most 2 — its guard is on `npts`, not on the number of kept
regression points. -/
theorem C5_amended (dts errs mcohs ta : List ℚ)
    (linReg1 linReg2 linReg3 : List ℚ → List ℚ → List ℚ → ℚ × ℚ)
    (dts2 ta2 : List ℚ) (npts : ℕ) (tmin tmax dt : ℚ) (st : List ℚ)
    (h1 : (mwcsKept dts errs mcohs).length ≤ 2) (h2 : ta2.length ≤ 2)
    (h3 : npts ≤ 2) :
    mwcsFinal dts errs mcohs ta linReg1 = (0, 0) ∧
      wccFinal dts2 ta2 linReg2 = (0, 0) ∧
      dtwRegress npts tmin tmax dt st linReg3 = (0, 0) := by
  refine ⟨?_, ?_, ?_⟩
  · rw [mwcsFinal]
    rw [if_neg (by omega)]
  · rw [wccFinal]
    rw [if_neg (by omega)]
  · rw [dtwRegress]
    rw [if_neg (by omega)]

/-- Claim C5 (witness). -/
theorem C5_witness :
    (mwcsKept [5, 5] [1, 1] [0, 0]).length ≤ 2 ∧
      ([4, 5] : List ℚ).length ≤ 2 ∧ (2 : ℕ) ≤ 2 ∧
      (mwcsFinal [5, 5] [1, 1] [0, 0] [1, 2] (fun _ _ _ => (1, 1)) = (0, 0) ∧
        wccFinal [7, 7] [4, 5] (fun _ _ _ => (1, 1)) = (0, 0) ∧
        dtwRegress 2 0 1 1 [0] (fun _ _ _ => (1, 1)) = (0, 0)) := by
  have h1 : (mwcsKept [5, 5] [1, 1] [0, 0]).length ≤ 2 :=
    le_trans (List.length_filter_le _ _) (by norm_num)
  exact ⟨h1, by norm_num, le_refl 2,
    C5_amended [5, 5] [1, 1] [0, 0] [1, 2] (fun _ _ _ => (1, 1))
      (fun _ _ _ => (1, 1)) (fun _ _ _ => (1, 1)) [7, 7] [4, 5] 2 0 1 1 [0]
      h1 (by norm_num) (le_refl 2)⟩

/-- Claim C8.  `cut_trace_make_statis` returns the empty result when the
waveform is shorter than the analysis window, and when the global
median-absolute-deviation or the global standard deviation is zero (the
non-finite guard is vacuous over exact rationals); otherwise it returns
`floor((window_seconds - segment_len)/step)` segments. -/
theorem C8_cut_trace (stdFn : List ℚ → ℚ) (inc_hours cc_len step sps : ℕ)
    (t0 : ℚ) (data : List ℚ) :
    (data.length < sps * inc_hours * 3600 →
      cut_trace_make_statis stdFn inc_hours cc_len step sps t0 data =
        ⟨[], [], []⟩) ∧
      (¬ data.length < sps * inc_hours * 3600 →
        (madQ data = 0 ∨ stdFn data = 0) →
        cut_trace_make_statis stdFn inc_hours cc_len step sps t0 data =
          ⟨[], [], []⟩) ∧
      (¬ data.length < sps * inc_hours * 3600 → ¬ madQ data = 0 →
        ¬ stdFn data = 0 → cc_len ≤ inc_hours * 3600 →
        (cut_trace_make_statis stdFn inc_hours cc_len step sps t0
          data).dataS.length = (inc_hours * 3600 - cc_len) / step) := by
  refine ⟨?_, ?_, ?_⟩
  · intro hshort
    rw [cut_trace_make_statis, if_pos hshort]
  · intro hlong hdeg
    rw [cut_trace_make_statis, if_neg hlong, if_pos hdeg]
  · intro hlong hmad hstd _hcc
    rw [cut_trace_make_statis, if_neg hlong,
      if_neg (by push_neg; exact ⟨hmad, hstd⟩)]
    simp [List.length_map]

/-- Claim C8 (witness). -/
theorem C8_witness :
    ¬ ([0, 1, 2] : List ℚ).length < 1 * 0 * 3600 ∧ ¬ madQ [0, 1, 2] = 0 ∧
      ¬ varQ [0, 1, 2] = 0 ∧
      (0 : ℕ) ≤ 0 * 3600 ∧
      (cut_trace_make_statis varQ 0 0 1 1 0 [0, 1, 2]).dataS.length =
        (0 * 3600 - 0) / 1 := by
  have e1 : |(0 : ℚ) - 1| = 1 := by
    rw [show (0 : ℚ) - 1 = -1 by norm_num, abs_neg, abs_one]
  have e2 : |(1 : ℚ) - 1| = 0 := by
    rw [show (1 : ℚ) - 1 = 0 by norm_num, abs_zero]
  have e3 : |(2 : ℚ) - 1| = 1 := by
    rw [show (2 : ℚ) - 1 = 1 by norm_num, abs_one]
  have hmad : ¬ madQ ([0, 1, 2] : List ℚ) = 0 := by
    norm_num [madQ, medianQ, sortQ, insertQ, e1, e2, e3]
  have hstd : ¬ varQ ([0, 1, 2] : List ℚ) = 0 := by
    norm_num [varQ, meanQ]
  have hlong : ¬ ([0, 1, 2] : List ℚ).length < 1 * 0 * 3600 := by norm_num
  exact ⟨hlong, hmad, hstd, le_refl 0,
    (C8_cut_trace varQ 0 0 1 1 0 [0, 1, 2]).2.2 hlong hmad hstd (le_refl 0)⟩

/-- Claim C9.  With `lag = 0` the error surface has a single column of
pointwise squared differences, and the strain-limited accumulation (any
`b ≥ 1`) telescopes: the final entry of the accumulated distance column
equals the cumulative sum of the pointwise squared differences of the two
traces. -/
theorem C9_dtw_zero_lag (u0 u1 : ℕ → ℚ) (n b : ℕ) (hb : 1 ≤ b)
    (hn : 1 ≤ n) :
    accumulateErrorFunction (computeErrorFunction u1 u0 n 0) 1 b (n - 1) 0 =
      ((List.range n).map (fun i => (u1 i - u0 i) ^ 2)).sum := by
  rw [accumulateErrorFunction_sum]
  rw [show n - 1 + 1 = n from by omega]
  apply congrArg
  apply List.map_congr_left
  intro i hi
  rw [List.mem_range] at hi
  exact computeErrorFunction_zero_lag u1 u0 n i hn hi

/-- Claim C9 (witness). -/
theorem C9_witness :
    1 ≤ 2 ∧ 1 ≤ 3 ∧
      accumulateErrorFunction
        (computeErrorFunction (fun (i : ℕ) => (i : ℚ)) (fun _ => 0) 3 0)
        1 2 (3 - 1) 0 =
        ((List.range 3).map
          (fun i => ((fun (i : ℕ) => (i : ℚ)) i - (fun _ => (0 : ℚ)) i) ^ 2)).sum :=
  ⟨by norm_num, by norm_num,
    C9_dtw_zero_lag (fun _ => 0) (fun (i : ℕ) => (i : ℚ)) 3 2 (by norm_num)
      (by norm_num)⟩

end SeisGo
